import Mathlib

/-!
Verification of the `PublicInbox` archiver plugin
(`mailman_public_inbox/__init__.py`).

The plugin's logic is embedded shallowly:

* bytes are `List Nat` (one `Nat` per byte);
* `bytes.decode()` is an abstract decoder parameter `dec : Bytes → Option String`
  returning `none` exactly on undecodable byte strings;
* Python dicts (which preserve insertion order) are association lists with
  in-place update on existing keys and append on new keys;
* the mutable object state (`self.pi_config`) is threaded explicitly through
  a `PIState`, and the outcomes of the external subprocesses are an `Env`
  record; each operation additionally returns the list of external commands
  it invoked (`Event`), in order, so that "command X was (not) run" is
  expressible.  Logging has no observable effect and is not modelled.
-/

namespace PublicInbox

/-- Byte strings, one natural number per byte. -/
abbrev Bytes := List Nat

/-- Model of Python `bytes.decode()`: an abstract decoder; `none` means the
bytes cannot be decoded (a `UnicodeDecodeError` in the source). -/
abbrev Decoder := Bytes → Option String

/-- Model of `cfg.split(b'\n', 1)` followed by the 2-tuple unpacking in
`_parse_publicinbox_config`: split at the first occurrence of `sep`;
`none` when `sep` does not occur (the unpacking of a 1-element list raises
`ValueError` in the source, and the entry is skipped). -/
def splitFirst (sep : Nat) : Bytes → Option (Bytes × Bytes)
  | [] => none
  | b :: bs =>
    if b = sep then some ([], bs)
    else (splitFirst sep bs).map (fun p => (b :: p.1, p.2))

/-- One raw config record, as handled by the loop body of
`_parse_publicinbox_config`: split the chunk at the first newline (byte 10)
and decode both halves; `none` when there is no newline or either half fails
to decode (`ValueError` / `UnicodeDecodeError` are caught and the entry is
skipped). -/
def parseChunk (dec : Decoder) (chunk : Bytes) : Option (String × String) :=
  match splitFirst 10 chunk with
  | none => none
  | some (kb, vb) =>
    match dec kb, dec vb with
    | some k, some v => some (k, v)
    | _, _ => none

/-- Split a character list at every occurrence of `c` (no merging of empty
pieces), mirroring Python `str.split` with a one-character separator.
Always returns a non-empty list. -/
def splitOnChar (c : Char) : List Char → List (List Char)
  | [] => [[]]
  | x :: xs =>
    match splitOnChar c xs with
    | [] => [[x]]
    | h :: t => if x = c then [] :: h :: t else (x :: h) :: t

/-- Model of `k.split(".")` in `_parse_publicinbox_config`. -/
def splitDots (s : String) : List String :=
  (splitOnChar '.' s.data).map (fun l => ⟨l⟩)

/-- The per-list field mapping (`self.pi_config[name]`), an insertion-ordered
dict from field name to value. -/
abbrev Record := List (String × String)

/-- The merged config mapping (`self.pi_config`), an insertion-ordered dict
from list name to its record. -/
abbrev PIConfig := List (String × Record)

/-- Model of Python `dict.get`: `none` when the key is absent. -/
def dictGet {α : Type} (d : List (String × α)) (k : String) : Option α :=
  match d with
  | [] => none
  | (k', v) :: rest => if k' = k then some v else dictGet rest k

/-- Model of Python `d[k] = v`: replace in place when the key is present
(keeping its position), append otherwise. -/
def dictInsert {α : Type} (d : List (String × α)) (k : String) (v : α) :
    List (String × α) :=
  match d with
  | [] => [(k, v)]
  | (k', v') :: rest =>
    if k' = k then (k', v) :: rest else (k', v') :: dictInsert rest k v

/-- Model of the two dict writes
`self.pi_config.setdefault-style insert; self.pi_config[name][conf] = v`. -/
def nestedInsert (st : PIConfig) (name conf v : String) : PIConfig :=
  match st with
  | [] => [(name, [(conf, v)])]
  | (n, d) :: rest =>
    if n = name then (n, dictInsert d conf v) :: rest
    else (n, d) :: nestedInsert rest name conf v

/-- One iteration of the `for cfg in proc.stdout.split(b'\0')` loop in
`_parse_publicinbox_config`: skip malformed chunks, split the key on `.`,
keep only keys of shape `publicinbox.<name>.<field>` (exactly three parts,
first part the literal `publicinbox`), and store the value. -/
def stepChunk (dec : Decoder) (st : PIConfig) (chunk : Bytes) : PIConfig :=
  match parseChunk dec chunk with
  | none => st
  | some (k, v) =>
    match splitDots k with
    | [p0, name, conf] =>
      if p0 = "publicinbox" then nestedInsert st name conf v else st
    | _ => st

/-- The whole parsing loop of `_parse_publicinbox_config`, over the list of
null-separated chunks of the `git config -z -l` output, starting from an
empty mapping. -/
def parseChunks (dec : Decoder) (chunks : List Bytes) : PIConfig :=
  chunks.foldl (stepChunk dec) []

/-- Field lookup in the merged mapping: `pi_config[name][field]`, as two
`dict.get`s. -/
def lookupField (st : PIConfig) (name field : String) : Option String :=
  (dictGet st name).bind (fun d => dictGet d field)

/-- The (name, field, value) contribution of one chunk, when it is
well-formed and its key has shape `publicinbox.<name>.<field>`; `none`
otherwise.  This is the filter applied by `stepChunk`, as one function. -/
def chunkEntry (dec : Decoder) (chunk : Bytes) :
    Option (String × String × String) :=
  match parseChunk dec chunk with
  | none => none
  | some (k, v) =>
    match splitDots k with
    | [p0, name, conf] =>
      if p0 = "publicinbox" then some (name, conf, v) else none
    | _ => none

/-- Accumulate, over the chunk sequence, the value of the last contributing
entry for a fixed (name, field) pair. -/
def updateLast (dec : Decoder) (name field : String) (acc : Option String)
    (chunk : Bytes) : Option String :=
  match chunkEntry dec chunk with
  | some (n, f, v) => if n = name ∧ f = field then some v else acc
  | none => acc

/-- The value of the last entry of the chunk sequence contributing to a
given (name, field) pair; `none` when no entry contributes.  This follows
the spec's description of the merged result (keys of shape
`publicinbox.<name>.<field>` only; last write wins). -/
def lastContribution (dec : Decoder) (chunks : List Bytes)
    (name field : String) : Option String :=
  chunks.foldl (updateLast dec name field) none

/-- The record lookup loop of `_get_publicinbox_conf`: iterate the records in
insertion order; per record, compare the `address` field with the list's
posting address, then the `listid` field with the list id; return the first
record on which either comparison succeeds.  The Python fallback `return {}`
(an empty, falsy dict) is modelled as `none`. -/
def findConf (records : PIConfig) (addr listid : String) : Option Record :=
  match records with
  | [] => none
  | (_, conf) :: rest =>
    if dictGet conf "address" = some addr then some conf
    else if dictGet conf "listid" = some listid then some conf
    else findConf rest addr listid

/-- Two-pass lookup, following the words of the spec sentence "returns the
first record whose `address` field equals `match_address`, else the first
whose `listid` field equals `match_listid`, else empty": all address
comparisons are made before any listid comparison is considered.  Written
from the spec, for comparison with `findConf` (which is written from the
source). -/
def findConfTwoPass (records : PIConfig) (addr listid : String) :
    Option Record :=
  match records.find? (fun p => decide (dictGet p.2 "address" = some addr)) with
  | some p => some p.2
  | none =>
    (records.find? (fun p => decide (dictGet p.2 "listid" = some listid))).map
      (fun p => p.2)

/-- Model of `msg_id[1:] if msg_id.startswith("<")`: drop the first
character when it is `<`. -/
def stripAngleL (s : String) : String :=
  match s.data with
  | c :: rest => if c = '<' then ⟨rest⟩ else s
  | [] => s

/-- Model of `msg_id[:-1] if msg_id.endswith(">")`: drop the last character
when it is `>`. -/
def stripAngleR (s : String) : String :=
  match s.data.reverse with
  | c :: rest => if c = '>' then ⟨rest.reverse⟩ else s
  | [] => s

/-- The two conditional strips applied to `msg['message-id']` in
`permalink`. -/
def stripMsgId (s : String) : String := stripAngleR (stripAngleL s)

/-- The prefix of `s` up to and including its last `/` (empty when `s` has
no slash). -/
def dirOf (s : String) : String :=
  ⟨(s.data.reverse.dropWhile (fun c => c ≠ '/')).reverse⟩

/-- Model of `urllib.parse.urljoin(base, rel)` restricted to the case this
plugin exercises: `rel` is a relative path reference (here a stripped
message id followed by `/`, with no scheme and no leading slash), which
replaces everything after the last slash of `base`.  In particular for a
`base` ending in `/` the result is `base ++ rel`. -/
def urljoin (base rel : String) : String := dirOf base ++ rel

/-- The pure tail of `permalink`, given the result of `self.list_url(mlist)`:
strip the angle brackets from the message id and, when the looked-up URL is
truthy (present and non-empty), join it with the stripped id plus `/`;
otherwise return `None`. -/
def permalinkPure (listUrl : Option String) (msgId : String) : Option String :=
  let m := stripMsgId msgId
  match listUrl with
  | some url => if url ≠ "" then some (urljoin url (m ++ "/")) else none
  | none => none

/-- Mailman's `ArchivePolicy` enumeration (`never`, `private`, `public`);
`private` is a Lean keyword, hence `private_policy`. -/
inductive ArchivePolicy
  | never
  | private_policy
  | public
deriving DecidableEq

/-- The fields of the host mailing-list object this plugin reads. -/
structure MList where
  posting_address : String
  list_id : String
  list_name : String
  fqdn_listname : String
  archive_policy : ArchivePolicy
  advertised : Bool
deriving DecidableEq

/-- The archiver's own configuration, loaded once in `__init__`.
`auto_create` and `reload_command` are strings (as returned by
`archiver_config.get`), and the source tests their truthiness: empty means
disabled/unset. -/
structure ArchiverConfig where
  base_url : String
  auto_create : String
  reload_command : String
deriving DecidableEq

/-- Outcomes of the external subprocesses: the chunks (null-separated
records) produced by `git config -z -l`, and whether each of the other
commands exits with status zero. -/
structure Env where
  gitOut : List Bytes
  initOk : Bool
  reloadOk : Bool
  mdaOk : Bool

/-- The mutable state of the `PublicInbox` object: the cached merged
mapping `self.pi_config` (empty means "not parsed yet", since the cache
check is Python truthiness). -/
structure PIState where
  pi_config : PIConfig
deriving DecidableEq

/-- External commands invoked, recorded in order; `runMda` carries whether
the delivery agent exited zero. -/
inductive Event
  | runGit
  | runInit
  | runReloadCmd
  | reloadCalled
  | runMda (ok : Bool)
deriving DecidableEq

/-- `_parse_publicinbox_config`: return at once when the cache is non-empty
(truthy); otherwise run `git config -z -l` and parse its output.  A non-zero
exit of the git command is only logged in the source; its stdout is parsed
regardless, so the exit code has no observable effect here. -/
def parse_publicinbox_config (dec : Decoder) (gitOut : List Bytes)
    (st : PIState) : PIState × List Event :=
  if st.pi_config ≠ [] then (st, [])
  else ({ pi_config := parseChunks dec gitOut }, [Event.runGit])

/-- `_get_publicinbox_conf`: parse (populating the cache when empty), then
search the records. -/
def get_publicinbox_conf (dec : Decoder) (env : Env) (mlist : MList)
    (st : PIState) : PIState × Option Record × List Event :=
  let p := parse_publicinbox_config dec env.gitOut st
  (p.1, findConf p.1.pi_config mlist.posting_address mlist.list_id, p.2)

/-- `_reload_public_inbox`: clear the cached config unconditionally, then
run the reload command only when one is configured (a non-zero exit is only
logged).  The `reloadCalled` event records that this method ran at all. -/
def reload_public_inbox (cfg : ArchiverConfig) (_st : PIState) :
    PIState × List Event :=
  let st1 : PIState := { pi_config := [] }
  if cfg.reload_command = "" then (st1, [Event.reloadCalled])
  else (st1, [Event.reloadCalled, Event.runReloadCmd])

/-- `list_url`: the `url` field of the matching record, when one exists. -/
def list_url (dec : Decoder) (env : Env) (mlist : MList) (st : PIState) :
    PIState × Option String × List Event :=
  let g := get_publicinbox_conf dec env mlist st
  match g.2.1 with
  | some c => (g.1, dictGet c "url", g.2.2)
  | none => (g.1, none, g.2.2)

/-- `permalink`: look up the list URL, strip the message id, and join. -/
def permalink (dec : Decoder) (env : Env) (mlist : MList) (msgId : String)
    (st : PIState) : PIState × Option String × List Event :=
  let l := list_url dec env mlist st
  (l.1, permalinkPure l.2.1 msgId, l.2.2)

/-- `_ensure_list_created`: `False` at once when auto-creation is disabled
(`self.auto_create` falsy); `True` when a matching record already exists;
`False` when the list is not publicly archived or not advertised; otherwise
run `public-inbox-init` — on non-zero exit return `False` (no reload), on
zero exit call `_reload_public_inbox` and return `True`. -/
def ensure_list_created (dec : Decoder) (env : Env) (cfg : ArchiverConfig)
    (mlist : MList) (st : PIState) : PIState × Bool × List Event :=
  if cfg.auto_create = "" then (st, false, [])
  else
    let g := get_publicinbox_conf dec env mlist st
    match g.2.1 with
    | some _ => (g.1, true, g.2.2)
    | none =>
      if mlist.archive_policy ≠ ArchivePolicy.public ∨ mlist.advertised = false
      then (g.1, false, g.2.2)
      else if env.initOk = false then (g.1, false, g.2.2 ++ [Event.runInit])
      else
        let r := reload_public_inbox cfg g.1
        (r.1, true, g.2.2 ++ [Event.runInit] ++ r.2)

/-- `archive_message`: `None` when the list-created check fails; otherwise
compute the permalink, run `public-inbox-mda` (its exit status is only
logged), and return the permalink. -/
def archive_message (dec : Decoder) (env : Env) (cfg : ArchiverConfig)
    (mlist : MList) (msgId : String) (st : PIState) :
    PIState × Option String × List Event :=
  let e := ensure_list_created dec env cfg mlist st
  if e.2.1 = false then (e.1, none, e.2.2)
  else
    let p := permalink dec env mlist msgId e.1
    (p.1, p.2.1, e.2.2 ++ p.2.2 ++ [Event.runMda env.mdaOk])

/-- Sample decoder for concrete runs: one record whose key is
`publicinbox.other.address`. -/
def sampleDec1 : Decoder := fun bs =>
  if bs = [1] then some "publicinbox.other.address"
  else if bs = [2] then some "b@y" else none

/-- Sample decoder for concrete runs: a record for list `l` with an
`address` and a `url` field. -/
def sampleDec2 : Decoder := fun bs =>
  if bs = [1] then some "publicinbox.l.address"
  else if bs = [2] then some "a@x"
  else if bs = [3] then some "publicinbox.l.url"
  else if bs = [4] then some "http://x/l/" else none

/-! Helper lemmas about the association-list dictionaries. -/

theorem dictGet_dictInsert {α : Type} (d : List (String × α)) (k : String)
    (v : α) (k2 : String) :
    dictGet (dictInsert d k v) k2 = if k = k2 then some v else dictGet d k2 := by
  induction d with
  | nil => simp [dictInsert, dictGet]
  | cons hd tl ih =>
    obtain ⟨k', v'⟩ := hd
    by_cases h : k' = k
    · subst h
      simp only [dictInsert, if_pos rfl, dictGet]
      by_cases h2 : k' = k2 <;> simp [h2]
    · simp only [dictInsert, if_neg h, dictGet, ih]
      by_cases h2 : k' = k2
      · subst h2
        have hk : ¬ k = k' := fun he => h he.symm
        simp [hk]
      · simp [h2]

theorem lookupField_nil (name field : String) :
    lookupField [] name field = none := rfl

theorem lookupField_cons (n1 : String) (d : Record) (tl : PIConfig)
    (n f : String) :
    lookupField ((n1, d) :: tl) n f
      = if n1 = n then dictGet d f else lookupField tl n f := by
  by_cases h : n1 = n <;> simp [lookupField, dictGet, h]

theorem lookupField_nestedInsert (st : PIConfig) (n0 f0 v n f : String) :
    lookupField (nestedInsert st n0 f0 v) n f
      = if n0 = n ∧ f0 = f then some v else lookupField st n f := by
  induction st with
  | nil =>
    by_cases h1 : n0 = n <;> by_cases h2 : f0 = f <;>
      simp [nestedInsert, lookupField, dictGet, h1, h2]
  | cons hd tl ih =>
    obtain ⟨n1, d⟩ := hd
    by_cases h : n1 = n0
    · subst h
      by_cases h1 : n1 = n
      · subst h1
        by_cases h2 : f0 = f <;>
          simp [nestedInsert, lookupField_cons, dictGet_dictInsert, h2]
      · simp [nestedInsert, lookupField_cons, h1]
    · by_cases h1 : n1 = n
      · subst h1
        have hb : ¬ n0 = n1 := fun he => h he.symm
        simp [nestedInsert, lookupField_cons, h, hb]
      · simp [nestedInsert, lookupField_cons, h, h1, ih]

theorem lookupField_stepChunk (dec : Decoder) (st : PIConfig) (ch : Bytes)
    (n f : String) :
    lookupField (stepChunk dec st ch) n f
      = updateLast dec n f (lookupField st n f) ch := by
  cases hp : parseChunk dec ch with
  | none => simp [stepChunk, updateLast, chunkEntry, hp]
  | some kv =>
    obtain ⟨k, v⟩ := kv
    cases hs : splitDots k with
    | nil => simp [stepChunk, updateLast, chunkEntry, hp, hs]
    | cons a t1 =>
      cases t1 with
      | nil => simp [stepChunk, updateLast, chunkEntry, hp, hs]
      | cons b t2 =>
        cases t2 with
        | nil => simp [stepChunk, updateLast, chunkEntry, hp, hs]
        | cons c t3 =>
          cases t3 with
          | cons d t4 => simp [stepChunk, updateLast, chunkEntry, hp, hs]
          | nil =>
            by_cases hpi : a = "publicinbox"
            · simp [stepChunk, updateLast, chunkEntry, hp, hs, hpi,
                lookupField_nestedInsert]
            · simp [stepChunk, updateLast, chunkEntry, hp, hs, hpi]

theorem lookupField_foldl (dec : Decoder) (n f : String) :
    ∀ (chunks : List Bytes) (st : PIConfig),
      lookupField (List.foldl (stepChunk dec) st chunks) n f
        = List.foldl (updateLast dec n f) (lookupField st n f) chunks
  | [], _ => rfl
  | ch :: t, st => by
    simp only [List.foldl_cons]
    rw [lookupField_foldl dec n f t (stepChunk dec st ch),
      lookupField_stepChunk]

theorem lookupField_parseChunks (dec : Decoder) (chunks : List Bytes)
    (n f : String) :
    lookupField (parseChunks dec chunks) n f = lastContribution dec chunks n f := by
  unfold parseChunks lastContribution
  rw [lookupField_foldl]
  rfl

/-! Helper lemmas about `splitOnChar` and `splitDots`. -/

theorem splitOnChar_ne_nil (c : Char) :
    ∀ (l : List Char), splitOnChar c l ≠ []
  | [] => by simp [splitOnChar]
  | x :: xs => by
    unfold splitOnChar
    cases h : splitOnChar c xs with
    | nil => simp
    | cons hh tt => by_cases hx : x = c <;> simp [hx]

theorem splitOnChar_of_not_mem (c : Char) :
    ∀ (l : List Char), c ∉ l → splitOnChar c l = [l]
  | [], _ => rfl
  | x :: xs, h => by
    have hx : ¬ x = c := fun he => h (he ▸ List.mem_cons_self x xs)
    have hxs : c ∉ xs := fun hm => h (List.mem_cons_of_mem x hm)
    unfold splitOnChar
    rw [splitOnChar_of_not_mem c xs hxs]
    simp [hx]

theorem splitOnChar_append (c : Char) :
    ∀ (a b : List Char), c ∉ a →
      splitOnChar c (a ++ c :: b) = a :: splitOnChar c b
  | [], b, _ => by
    rw [List.nil_append]
    cases h : splitOnChar c b with
    | nil => exact absurd h (splitOnChar_ne_nil c b)
    | cons hh tt =>
      simp only [splitOnChar, h]
      simp
  | x :: xs, b, h => by
    have hx : ¬ x = c := fun he => h (he ▸ List.mem_cons_self x xs)
    have hxs : c ∉ xs := fun hm => h (List.mem_cons_of_mem x hm)
    have ih := splitOnChar_append c xs b hxs
    show splitOnChar c (x :: (xs ++ c :: b)) = (x :: xs) :: splitOnChar c b
    simp only [splitOnChar, ih]
    simp [hx]

theorem data_append (s t : String) : (s ++ t).data = s.data ++ t.data := rfl

theorem splitDots_publicinbox (name field : String)
    (hn : '.' ∉ name.data) (hf : '.' ∉ field.data) :
    splitDots ("publicinbox." ++ name ++ "." ++ field)
      = ["publicinbox", name, field] := by
  unfold splitDots
  have h1 : ("publicinbox." ++ name ++ "." ++ field).data
      = "publicinbox".data ++ '.' :: (name.data ++ '.' :: field.data) := by
    simp [data_append, List.append_assoc]
  rw [h1, splitOnChar_append _ _ _ (by decide),
    splitOnChar_append _ _ _ hn, splitOnChar_of_not_mem _ _ hf]
  rfl

/-! Helper lemmas for the claims about parsing. -/

theorem updateLast_no_contrib (dec : Decoder) (n f : String) :
    ∀ (post : List Bytes) (acc : Option String),
      (∀ ch ∈ post, ∀ v, chunkEntry dec ch ≠ some (n, f, v)) →
      List.foldl (updateLast dec n f) acc post = acc
  | [], _, _ => rfl
  | ch :: t, acc, h => by
    have hch := h ch (List.mem_cons_self ch t)
    have hstep : updateLast dec n f acc ch = acc := by
      unfold updateLast
      cases he : chunkEntry dec ch with
      | none => rfl
      | some e =>
        obtain ⟨n0, f0, v⟩ := e
        by_cases hnf : n0 = n ∧ f0 = f
        · obtain ⟨e1, e2⟩ := hnf
          subst e1; subst e2
          exact absurd he (hch v)
        · simp [hnf]
    simp only [List.foldl_cons, hstep]
    exact updateLast_no_contrib dec n f t acc
      (fun c hm v => h c (List.mem_cons_of_mem ch hm) v)

theorem stepChunk_malformed (dec : Decoder) (st : PIConfig) (ch : Bytes)
    (h : parseChunk dec ch = none) : stepChunk dec st ch = st := by
  simp [stepChunk, h]

theorem parseChunks_foldl_filter (dec : Decoder) :
    ∀ (chunks : List Bytes) (st : PIConfig),
      List.foldl (stepChunk dec) st chunks
        = List.foldl (stepChunk dec) st
            (chunks.filter (fun ch => (parseChunk dec ch).isSome))
  | [], _ => rfl
  | ch :: t, st => by
    by_cases h : (parseChunk dec ch).isSome
    · simp only [List.filter_cons, h, if_pos, List.foldl_cons]
      exact parseChunks_foldl_filter dec t (stepChunk dec st ch)
    · have hn : parseChunk dec ch = none := by
        cases hp : parseChunk dec ch with
        | none => rfl
        | some kv => rw [hp] at h; simp at h
      simp only [List.filter_cons, h, List.foldl_cons,
        stepChunk_malformed dec st ch hn]
      simp only [Bool.false_eq_true, if_neg]
      exact parseChunks_foldl_filter dec t st

/-! Claim theorems. -/

/-- C1: for every sequence of raw config entries containing a well-formed
entry with key `publicinbox.<name>.<field>` (name and field containing no
dots, and no later entry with the same name and field), parsing the
sequence and then looking up field `<field>` in the record for `<name>`
returns exactly the original value string. -/
theorem parse_lookup_roundtrip (dec : Decoder) (pre post : List Bytes)
    (chunk : Bytes) (name field value : String)
    (hchunk : parseChunk dec chunk
      = some ("publicinbox." ++ name ++ "." ++ field, value))
    (hn : '.' ∉ name.data) (hf : '.' ∉ field.data)
    (hpost : ∀ ch ∈ post, ∀ v, chunkEntry dec ch ≠ some (name, field, v)) :
    lookupField (parseChunks dec (pre ++ chunk :: post)) name field
      = some value := by
  have hce : chunkEntry dec chunk = some (name, field, value) := by
    unfold chunkEntry
    rw [hchunk]
    simp [splitDots_publicinbox name field hn hf]
  rw [lookupField_parseChunks]
  unfold lastContribution
  rw [List.foldl_append, List.foldl_cons]
  have hmid : updateLast dec name field
      (List.foldl (updateLast dec name field) none pre) chunk = some value := by
    unfold updateLast
    rw [hce]
    simp
  rw [hmid, updateLast_no_contrib dec name field post (some value) hpost]

/-- Witness for C1 at a concrete input: one well-formed entry
`publicinbox.a.url` with value `http://x/a/`, followed by a malformed
chunk. -/
theorem parse_lookup_roundtrip_witness :
    lookupField
      (parseChunks
        (fun bs =>
          if bs = [1] then some "publicinbox.a.url"
          else if bs = [2] then some "http://x/a/" else none)
        ([] ++ [1, 10, 2] :: [[7]])) "a" "url"
      = some "http://x/a/" :=
  parse_lookup_roundtrip
    (fun bs =>
      if bs = [1] then some "publicinbox.a.url"
      else if bs = [2] then some "http://x/a/" else none)
    [] [[7]] [1, 10, 2] "a" "url" "http://x/a/"
    (by decide) (by decide) (by decide)
    (fun ch hm v => by
      have hch : ch = [7] := by simpa using hm
      subst hch
      have hnone : chunkEntry
          (fun bs =>
            if bs = [1] then some "publicinbox.a.url"
            else if bs = [2] then some "http://x/a/" else none) [7]
          = none := by decide
      rw [hnone]
      exact fun hco => Option.noConfusion hco)

/-- C5: field lookup in the merged result of parsing equals the value of
the last entry whose key splits on `.` into exactly three components with
first component the literal `publicinbox` and the other two components the
looked-up name and field; entries of any other shape never contribute. -/
theorem parse_merged_result (dec : Decoder) (chunks : List Bytes)
    (name field : String) :
    lookupField (parseChunks dec chunks) name field
      = lastContribution dec chunks name field :=
  lookupField_parseChunks dec chunks name field

/-- C6: parsing is total and never signals an error: dropping every
malformed entry (one with no key/value split or undecodable bytes, i.e.
`parseChunk dec ch = none`) leaves the merged result unchanged. -/
theorem parse_skips_malformed (dec : Decoder) (chunks : List Bytes) :
    parseChunks dec chunks
      = parseChunks dec
          (chunks.filter (fun ch => (parseChunk dec ch).isSome)) := by
  unfold parseChunks
  exact parseChunks_foldl_filter dec chunks []

/-- C2: the lookup of `_get_publicinbox_conf` returns the first record in
insertion order on which the per-record check (the `address` field equals
the posting address, or else the `listid` field equals the list id)
succeeds, and `none` when no record matches. -/
theorem findConf_first_per_record_match (records : PIConfig)
    (addr listid : String) :
    findConf records addr listid
      = (records.find? (fun p =>
            decide (dictGet p.2 "address" = some addr
              ∨ dictGet p.2 "listid" = some listid))).map (fun p => p.2) := by
  induction records with
  | nil => rfl
  | cons hd tl ih =>
    obtain ⟨nm, conf⟩ := hd
    by_cases h1 : dictGet conf "address" = some addr
    · simp [findConf, List.find?, h1]
    · by_cases h2 : dictGet conf "listid" = some listid
      · simp [findConf, List.find?, h1, h2]
      · simp [findConf, List.find?, h1, h2, ih]

/-- Counterexample to C3 as stated: on these records, an earlier record
matching only on `listid` does shadow a later record matching on
`address`, so the code's lookup differs from the spec's two-pass
description. -/
theorem findConf_ne_twoPass_cex :
    findConf [("one", [("listid", "l.x")]), ("two", [("address", "a@x")])]
        "a@x" "l.x"
      = some [("listid", "l.x")]
    ∧ findConfTwoPass
        [("one", [("listid", "l.x")]), ("two", [("address", "a@x")])]
        "a@x" "l.x"
      = some [("address", "a@x")]
    ∧ findConf [("one", [("listid", "l.x")]), ("two", [("address", "a@x")])]
        "a@x" "l.x"
      ≠ findConfTwoPass
        [("one", [("listid", "l.x")]), ("two", [("address", "a@x")])]
        "a@x" "l.x" := by
  decide

/-- C3 (amended): the lookup checks each record in turn, `address` first
and then `listid`, returning that record on the first per-record match; in
particular an earlier record matching on `listid` does shadow every later
record, including one matching on `address`. -/
theorem findConf_earlier_listid_shadows (n : String) (c : Record)
    (rest : PIConfig) (addr listid : String)
    (h : dictGet c "listid" = some listid) :
    findConf ((n, c) :: rest) addr listid = some c := by
  by_cases h1 : dictGet c "address" = some addr <;> simp [findConf, h1, h]

/-- Witness for the amended C3: the head record matches on `listid` and is
returned even though a later record matches on `address`. -/
theorem findConf_earlier_listid_shadows_witness :
    findConf [("one", [("listid", "l.x")]), ("two", [("address", "a@x")])]
        "a@x" "l.x"
      = some [("listid", "l.x")] :=
  findConf_earlier_listid_shadows "one" [("listid", "l.x")]
    [("two", [("address", "a@x")])] "a@x" "l.x" (by decide)

/-! Helper lemmas for the permalink claim. -/

theorem stripAngleL_angle (s : String) : stripAngleL ("<" ++ s) = s := by
  have h : ("<" ++ s).data = '<' :: s.data := rfl
  unfold stripAngleL
  rw [h]
  simp

theorem stripAngleR_angle (s : String) : stripAngleR (s ++ ">") = s := by
  have h : (s ++ ">").data.reverse = '>' :: s.data.reverse := by
    simp [data_append]
  unfold stripAngleR
  rw [h]
  simp

theorem stripMsgId_angles (s : String) : stripMsgId ("<" ++ s ++ ">") = s := by
  have e : "<" ++ s ++ ">" = "<" ++ (s ++ ">") := rfl
  rw [e]
  unfold stripMsgId
  rw [stripAngleL_angle, stripAngleR_angle]

/-- C4: with a present, non-empty looked-up URL, the permalink strips
exactly one leading `<` and one trailing `>` from the message identifier
and joins the result (plus a trailing `/`) onto the URL; with an absent or
empty URL the permalink is `none` regardless of the identifier. -/
theorem permalink_strip_join (url s t : String) (h : url ≠ "") :
    permalinkPure (some url) ("<" ++ s ++ ">") = some (urljoin url (s ++ "/"))
    ∧ permalinkPure none t = none
    ∧ permalinkPure (some "") t = none := by
  refine ⟨?_, rfl, ?_⟩
  · unfold permalinkPure
    rw [stripMsgId_angles]
    simp [h]
  · unfold permalinkPure
    simp

/-- Witness for C4: the spec's own example, URL `http://x/list/` and id
`<abc@d>` yield `http://x/list/abc@d/`; with no URL or an empty URL the
permalink is absent. -/
theorem permalink_strip_join_witness :
    permalinkPure (some "http://x/list/") "<abc@d>"
      = some "http://x/list/abc@d/"
    ∧ permalinkPure none "<abc@d>" = none
    ∧ permalinkPure (some "") "<abc@d>" = none := by
  have h := permalink_strip_join "http://x/list/" "abc@d" "<abc@d>"
    (by decide)
  have e1 : "<" ++ "abc@d" ++ ">" = "<abc@d>" := by decide
  have e2 : urljoin "http://x/list/" ("abc@d" ++ "/")
      = "http://x/list/abc@d/" := by decide
  rw [e1, e2] at h
  exact h

/-! Helper lemmas about the stateful operations. -/

theorem mem_parse_trace (dec : Decoder) (g : List Bytes) (st : PIState)
    {e : Event} (h : e ∈ (parse_publicinbox_config dec g st).2) :
    e = Event.runGit := by
  unfold parse_publicinbox_config at h
  by_cases hc : st.pi_config ≠ []
  · rw [if_pos hc] at h
    simp at h
  · rw [if_neg hc] at h
    simpa using h

theorem reload_clears (cfg : ArchiverConfig) (st : PIState) :
    (reload_public_inbox cfg st).1.pi_config = [] := by
  unfold reload_public_inbox
  by_cases h : cfg.reload_command = "" <;> simp [h]

theorem reloadCalled_mem_reload (cfg : ArchiverConfig) (st : PIState) :
    Event.reloadCalled ∈ (reload_public_inbox cfg st).2 := by
  unfold reload_public_inbox
  by_cases h : cfg.reload_command = "" <;> simp [h]

theorem ensure_eq_of_no_autocreate (dec : Decoder) (env : Env)
    (cfg : ArchiverConfig) (mlist : MList) (st : PIState)
    (hac : cfg.auto_create = "") :
    ensure_list_created dec env cfg mlist st = (st, false, []) := by
  simp [ensure_list_created, hac]

theorem ensure_eq_of_existing (dec : Decoder) (env : Env)
    (cfg : ArchiverConfig) (mlist : MList) (st : PIState)
    (hac : ¬ cfg.auto_create = "") (c : Record)
    (hfind : findConf (parse_publicinbox_config dec env.gitOut st).1.pi_config
        mlist.posting_address mlist.list_id = some c) :
    ensure_list_created dec env cfg mlist st
      = ((parse_publicinbox_config dec env.gitOut st).1, true,
         (parse_publicinbox_config dec env.gitOut st).2) := by
  simp [ensure_list_created, get_publicinbox_conf, hac, hfind]

theorem ensure_eq_of_policy (dec : Decoder) (env : Env)
    (cfg : ArchiverConfig) (mlist : MList) (st : PIState)
    (hac : ¬ cfg.auto_create = "")
    (hfind : findConf (parse_publicinbox_config dec env.gitOut st).1.pi_config
        mlist.posting_address mlist.list_id = none)
    (hpol : mlist.archive_policy ≠ ArchivePolicy.public
      ∨ mlist.advertised = false) :
    ensure_list_created dec env cfg mlist st
      = ((parse_publicinbox_config dec env.gitOut st).1, false,
         (parse_publicinbox_config dec env.gitOut st).2) := by
  simp [ensure_list_created, get_publicinbox_conf, hac, hfind, hpol]

theorem ensure_eq_of_init_fail (dec : Decoder) (env : Env)
    (cfg : ArchiverConfig) (mlist : MList) (st : PIState)
    (hac : ¬ cfg.auto_create = "")
    (hfind : findConf (parse_publicinbox_config dec env.gitOut st).1.pi_config
        mlist.posting_address mlist.list_id = none)
    (hpol : ¬ (mlist.archive_policy ≠ ArchivePolicy.public
      ∨ mlist.advertised = false))
    (hio : env.initOk = false) :
    ensure_list_created dec env cfg mlist st
      = ((parse_publicinbox_config dec env.gitOut st).1, false,
         (parse_publicinbox_config dec env.gitOut st).2 ++ [Event.runInit]) := by
  simp [ensure_list_created, get_publicinbox_conf, hac, hfind, hpol, hio]

theorem ensure_eq_of_init_ok (dec : Decoder) (env : Env)
    (cfg : ArchiverConfig) (mlist : MList) (st : PIState)
    (hac : ¬ cfg.auto_create = "")
    (hfind : findConf (parse_publicinbox_config dec env.gitOut st).1.pi_config
        mlist.posting_address mlist.list_id = none)
    (hpol : ¬ (mlist.archive_policy ≠ ArchivePolicy.public
      ∨ mlist.advertised = false))
    (hio : env.initOk = true) :
    ensure_list_created dec env cfg mlist st
      = ((reload_public_inbox cfg
            (parse_publicinbox_config dec env.gitOut st).1).1, true,
         (parse_publicinbox_config dec env.gitOut st).2 ++ [Event.runInit]
           ++ (reload_public_inbox cfg
                 (parse_publicinbox_config dec env.gitOut st).1).2) := by
  simp [ensure_list_created, get_publicinbox_conf, hac, hfind, hpol, hio]

theorem ensureInitAux (dec : Decoder) (env : Env) (cfg : ArchiverConfig)
    (mlist : MList) (st : PIState)
    (h : Event.runInit ∈ (ensure_list_created dec env cfg mlist st).2.2) :
    (env.initOk = false →
        (ensure_list_created dec env cfg mlist st).2.1 = false
      ∧ Event.reloadCalled ∉ (ensure_list_created dec env cfg mlist st).2.2
      ∧ (ensure_list_created dec env cfg mlist st).1
          = (parse_publicinbox_config dec env.gitOut st).1)
    ∧ (env.initOk = true →
        (ensure_list_created dec env cfg mlist st).2.1 = true
      ∧ Event.reloadCalled ∈ (ensure_list_created dec env cfg mlist st).2.2
      ∧ (ensure_list_created dec env cfg mlist st).1.pi_config = []) := by
  by_cases hac : cfg.auto_create = ""
  · rw [ensure_eq_of_no_autocreate dec env cfg mlist st hac] at h
    simp at h
  · cases hfind : findConf (parse_publicinbox_config dec env.gitOut st).1.pi_config
        mlist.posting_address mlist.list_id with
    | some c =>
      rw [ensure_eq_of_existing dec env cfg mlist st hac c hfind] at h
      exact absurd (mem_parse_trace dec env.gitOut st h) (by simp)
    | none =>
      by_cases hpol : mlist.archive_policy ≠ ArchivePolicy.public
          ∨ mlist.advertised = false
      · rw [ensure_eq_of_policy dec env cfg mlist st hac hfind hpol] at h
        exact absurd (mem_parse_trace dec env.gitOut st h) (by simp)
      · cases hio : env.initOk with
        | false =>
          rw [ensure_eq_of_init_fail dec env cfg mlist st hac hfind hpol hio]
          constructor
          · intro _
            refine ⟨rfl, ?_, rfl⟩
            intro hmem
            rcases List.mem_append.mp hmem with h1 | h2
            · exact Event.noConfusion (mem_parse_trace dec env.gitOut st h1)
            · simp at h2
          · intro hio2
            exact Bool.noConfusion hio2
        | true =>
          rw [ensure_eq_of_init_ok dec env cfg mlist st hac hfind hpol hio]
          constructor
          · intro hio2
            exact Bool.noConfusion hio2
          · intro _
            refine ⟨rfl, ?_, reload_clears cfg _⟩
            exact List.mem_append.mpr
              (Or.inr (reloadCalled_mem_reload cfg
                (parse_publicinbox_config dec env.gitOut st).1))

/-- C7: for every list creation attempt that actually invokes the init
command, a non-zero init exit yields "not created", triggers no reload and
leaves the cached mapping as the existence check left it; a zero init exit
always triggers a reload (clearing the cached config) before "created" is
returned. -/
theorem ensure_init_result (dec : Decoder) (env : Env) (cfg : ArchiverConfig)
    (mlist : MList) (st : PIState)
    (h : Event.runInit ∈ (ensure_list_created dec env cfg mlist st).2.2) :
    (env.initOk = false →
        (ensure_list_created dec env cfg mlist st).2.1 = false
      ∧ Event.reloadCalled ∉ (ensure_list_created dec env cfg mlist st).2.2
      ∧ (ensure_list_created dec env cfg mlist st).1
          = (parse_publicinbox_config dec env.gitOut st).1)
    ∧ (env.initOk = true →
        (ensure_list_created dec env cfg mlist st).2.1 = true
      ∧ Event.reloadCalled ∈ (ensure_list_created dec env cfg mlist st).2.2
      ∧ (ensure_list_created dec env cfg mlist st).1.pi_config = []) :=
  ensureInitAux dec env cfg mlist st h

/-- Witness for C7: a concrete successful creation attempt (empty starting
config, auto-creation on, public and advertised list, init exiting zero)
returns "created", triggers the reload and leaves the cache cleared. -/
theorem ensure_init_result_witness :
    (ensure_list_created (fun _ => none) ⟨[], true, true, true⟩
        ⟨"http://x/", "1", ""⟩
        ⟨"a@x", "a.x", "a", "a@x", ArchivePolicy.public, true⟩ ⟨[]⟩).2.1 = true
    ∧ Event.reloadCalled ∈
        (ensure_list_created (fun _ => none) ⟨[], true, true, true⟩
          ⟨"http://x/", "1", ""⟩
          ⟨"a@x", "a.x", "a", "a@x", ArchivePolicy.public, true⟩ ⟨[]⟩).2.2
    ∧ (ensure_list_created (fun _ => none) ⟨[], true, true, true⟩
        ⟨"http://x/", "1", ""⟩
        ⟨"a@x", "a.x", "a", "a@x", ArchivePolicy.public, true⟩
        ⟨[]⟩).1.pi_config = [] :=
  (ensure_init_result (fun _ => none) ⟨[], true, true, true⟩
    ⟨"http://x/", "1", ""⟩
    ⟨"a@x", "a.x", "a", "a@x", ArchivePolicy.public, true⟩ ⟨[]⟩
    (by decide)).2 rfl

/-- Counterexample to C8 as stated: a concrete failed creation attempt
(init exits non-zero) that does invoke the init command and leaves the
cached merged mapping non-empty — the cache is not cleared after this
attempt. -/
theorem failed_create_keeps_cache_cex :
    Event.runInit ∈
        (ensure_list_created sampleDec1 ⟨[[1, 10, 2]], false, true, true⟩
          ⟨"http://x/", "1", ""⟩
          ⟨"a@x", "a.x", "l", "l@x", ArchivePolicy.public, true⟩ ⟨[]⟩).2.2
    ∧ (ensure_list_created sampleDec1 ⟨[[1, 10, 2]], false, true, true⟩
        ⟨"http://x/", "1", ""⟩
        ⟨"a@x", "a.x", "l", "l@x", ArchivePolicy.public, true⟩
        ⟨[]⟩).1.pi_config ≠ [] := by
  decide

/-- C8 (amended): the cached merged mapping is cleared after every reload
(even when no reload command is configured) and after every successful
list creation; a failed creation attempt leaves it unchanged. -/
theorem cache_invalidation (dec : Decoder) (env : Env) (cfg : ArchiverConfig)
    (mlist : MList) (st : PIState) :
    (reload_public_inbox cfg st).1.pi_config = []
    ∧ (env.initOk = true →
        Event.runInit ∈ (ensure_list_created dec env cfg mlist st).2.2 →
        (ensure_list_created dec env cfg mlist st).1.pi_config = []) :=
  ⟨reload_clears cfg st,
   fun hio hmem => ((ensureInitAux dec env cfg mlist st hmem).2 hio).2.2⟩

/-- Witness for the amended C8: reloading with a non-empty cache and no
reload command clears it, and a successful creation attempt starting from
that same non-empty cache clears it too. -/
theorem cache_invalidation_witness :
    (reload_public_inbox ⟨"http://x/", "1", ""⟩
        ⟨[("a", [("b", "c")])]⟩).1.pi_config = []
    ∧ (ensure_list_created (fun _ => none) ⟨[], true, true, true⟩
        ⟨"http://x/", "1", ""⟩
        ⟨"a@x", "a.x", "a", "a@x", ArchivePolicy.public, true⟩
        ⟨[("a", [("b", "c")])]⟩).1.pi_config = [] :=
  ⟨(cache_invalidation (fun _ => none) ⟨[], true, true, true⟩
      ⟨"http://x/", "1", ""⟩
      ⟨"a@x", "a.x", "a", "a@x", ArchivePolicy.public, true⟩
      ⟨[("a", [("b", "c")])]⟩).1,
   (cache_invalidation (fun _ => none) ⟨[], true, true, true⟩
      ⟨"http://x/", "1", ""⟩
      ⟨"a@x", "a.x", "a", "a@x", ArchivePolicy.public, true⟩
      ⟨[("a", [("b", "c")])]⟩).2 rfl (by decide)⟩

/-! Helper lemmas for the archiving claims. -/

theorem ensure_mdaOk_irrel (dec : Decoder) (env : Env) (cfg : ArchiverConfig)
    (mlist : MList) (st : PIState) (b : Bool) :
    ensure_list_created dec { env with mdaOk := b } cfg mlist st
      = ensure_list_created dec env cfg mlist st := rfl

theorem permalink_mdaOk_irrel (dec : Decoder) (env : Env) (mlist : MList)
    (msgId : String) (st : PIState) (b : Bool) :
    permalink dec { env with mdaOk := b } mlist msgId st
      = permalink dec env mlist msgId st := rfl

theorem archive_eq_of_created (dec : Decoder) (env : Env)
    (cfg : ArchiverConfig) (mlist : MList) (msgId : String) (st : PIState)
    (h : (ensure_list_created dec env cfg mlist st).2.1 = true) :
    archive_message dec env cfg mlist msgId st
      = ((permalink dec env mlist msgId
            (ensure_list_created dec env cfg mlist st).1).1,
         (permalink dec env mlist msgId
            (ensure_list_created dec env cfg mlist st).1).2.1,
         (ensure_list_created dec env cfg mlist st).2.2
           ++ (permalink dec env mlist msgId
                 (ensure_list_created dec env cfg mlist st).1).2.2
           ++ [Event.runMda env.mdaOk]) := by
  simp [archive_message, h]

/-- C9: whenever the list-created check succeeds, the archive operation
returns the permalink computed (from the post-check state) before the
delivery agent is invoked, the delivery agent is invoked, and the returned
permalink is the same whether the delivery agent exits zero or non-zero. -/
theorem archive_returns_permalink (dec : Decoder) (env : Env)
    (cfg : ArchiverConfig) (mlist : MList) (msgId : String) (st : PIState)
    (h : (ensure_list_created dec env cfg mlist st).2.1 = true) :
    (archive_message dec env cfg mlist msgId st).2.1
      = (permalink dec env mlist msgId
          (ensure_list_created dec env cfg mlist st).1).2.1
    ∧ Event.runMda env.mdaOk ∈ (archive_message dec env cfg mlist msgId st).2.2
    ∧ ∀ b : Bool,
        (archive_message dec { env with mdaOk := b } cfg mlist msgId st).2.1
          = (archive_message dec env cfg mlist msgId st).2.1 := by
  have he := archive_eq_of_created dec env cfg mlist msgId st h
  refine ⟨by rw [he], by rw [he]; simp, ?_⟩
  intro b
  have h2 : (ensure_list_created dec { env with mdaOk := b } cfg mlist st).2.1
      = true := by
    rw [ensure_mdaOk_irrel]
    exact h
  have he2 := archive_eq_of_created dec { env with mdaOk := b } cfg mlist
    msgId st h2
  rw [he, he2]
  simp only [ensure_mdaOk_irrel, permalink_mdaOk_irrel]

/-- Witness for C9: a concrete archived message; with the list already
configured (address and url present), the archive operation returns the
permalink `http://x/l/m@1/`, and the same value with the delivery agent
failing. -/
theorem archive_returns_permalink_witness :
    (archive_message sampleDec2 ⟨[[1, 10, 2], [3, 10, 4]], true, true, true⟩
        ⟨"http://x/", "1", ""⟩
        ⟨"a@x", "a.x", "l", "l@x", ArchivePolicy.public, true⟩ "<m@1>"
        ⟨[]⟩).2.1
      = (permalink sampleDec2 ⟨[[1, 10, 2], [3, 10, 4]], true, true, true⟩
          ⟨"a@x", "a.x", "l", "l@x", ArchivePolicy.public, true⟩ "<m@1>"
          (ensure_list_created sampleDec2
            ⟨[[1, 10, 2], [3, 10, 4]], true, true, true⟩
            ⟨"http://x/", "1", ""⟩
            ⟨"a@x", "a.x", "l", "l@x", ArchivePolicy.public, true⟩ ⟨[]⟩).1).2.1
    ∧ (archive_message sampleDec2
        ⟨[[1, 10, 2], [3, 10, 4]], true, true, false⟩
        ⟨"http://x/", "1", ""⟩
        ⟨"a@x", "a.x", "l", "l@x", ArchivePolicy.public, true⟩ "<m@1>"
        ⟨[]⟩).2.1
      = (archive_message sampleDec2 ⟨[[1, 10, 2], [3, 10, 4]], true, true, true⟩
          ⟨"http://x/", "1", ""⟩
          ⟨"a@x", "a.x", "l", "l@x", ArchivePolicy.public, true⟩ "<m@1>"
          ⟨[]⟩).2.1
    ∧ (archive_message sampleDec2 ⟨[[1, 10, 2], [3, 10, 4]], true, true, true⟩
        ⟨"http://x/", "1", ""⟩
        ⟨"a@x", "a.x", "l", "l@x", ArchivePolicy.public, true⟩ "<m@1>"
        ⟨[]⟩).2.1 = some "http://x/l/m@1/" :=
  ⟨(archive_returns_permalink sampleDec2
      ⟨[[1, 10, 2], [3, 10, 4]], true, true, true⟩ ⟨"http://x/", "1", ""⟩
      ⟨"a@x", "a.x", "l", "l@x", ArchivePolicy.public, true⟩ "<m@1>" ⟨[]⟩
      (by decide)).1,
   (archive_returns_permalink sampleDec2
      ⟨[[1, 10, 2], [3, 10, 4]], true, true, true⟩ ⟨"http://x/", "1", ""⟩
      ⟨"a@x", "a.x", "l", "l@x", ArchivePolicy.public, true⟩ "<m@1>" ⟨[]⟩
      (by decide)).2.2 false,
   by decide⟩

/-- C10: with the auto-create flag disabled (empty, hence falsy), the
archive operation returns an absent value, never invokes the delivery
agent, and leaves the state unchanged — regardless of the environment, so
also when a matching record with a URL exists. -/
theorem archive_no_autocreate (dec : Decoder) (env : Env)
    (cfg : ArchiverConfig) (mlist : MList) (msgId : String) (st : PIState)
    (h : cfg.auto_create = "") :
    (archive_message dec env cfg mlist msgId st).2.1 = none
    ∧ (∀ b : Bool,
        Event.runMda b ∉ (archive_message dec env cfg mlist msgId st).2.2)
    ∧ (archive_message dec env cfg mlist msgId st).1 = st := by
  have he : archive_message dec env cfg mlist msgId st = (st, none, []) := by
    unfold archive_message
    rw [ensure_eq_of_no_autocreate dec env cfg mlist st h]
    simp
  rw [he]
  simp

/-- Witness for C10: auto-creation off while the environment does hold a
matching record with a URL; the archive operation returns `none` and the
delivery agent is not run. -/
theorem archive_no_autocreate_witness :
    (archive_message sampleDec2 ⟨[[1, 10, 2], [3, 10, 4]], true, true, true⟩
        ⟨"http://x/", "", ""⟩
        ⟨"a@x", "a.x", "l", "l@x", ArchivePolicy.public, true⟩ "<m@1>"
        ⟨[]⟩).2.1 = none
    ∧ Event.runMda true ∉
        (archive_message sampleDec2 ⟨[[1, 10, 2], [3, 10, 4]], true, true, true⟩
          ⟨"http://x/", "", ""⟩
          ⟨"a@x", "a.x", "l", "l@x", ArchivePolicy.public, true⟩ "<m@1>"
          ⟨[]⟩).2.2
    ∧ (archive_message sampleDec2 ⟨[[1, 10, 2], [3, 10, 4]], true, true, true⟩
        ⟨"http://x/", "", ""⟩
        ⟨"a@x", "a.x", "l", "l@x", ArchivePolicy.public, true⟩ "<m@1>"
        ⟨[]⟩).1 = ⟨[]⟩ :=
  ⟨(archive_no_autocreate sampleDec2 ⟨[[1, 10, 2], [3, 10, 4]], true, true, true⟩
      ⟨"http://x/", "", ""⟩
      ⟨"a@x", "a.x", "l", "l@x", ArchivePolicy.public, true⟩ "<m@1>" ⟨[]⟩
      rfl).1,
   (archive_no_autocreate sampleDec2 ⟨[[1, 10, 2], [3, 10, 4]], true, true, true⟩
      ⟨"http://x/", "", ""⟩
      ⟨"a@x", "a.x", "l", "l@x", ArchivePolicy.public, true⟩ "<m@1>" ⟨[]⟩
      rfl).2.1 true,
   (archive_no_autocreate sampleDec2 ⟨[[1, 10, 2], [3, 10, 4]], true, true, true⟩
      ⟨"http://x/", "", ""⟩
      ⟨"a@x", "a.x", "l", "l@x", ArchivePolicy.public, true⟩ "<m@1>" ⟨[]⟩
      rfl).2.2⟩

end PublicInbox
